import Mathlib

/-!
Shallow embedding of `datax` (src/datax/transform.py): a small XML-to-CSV
transformer built from two classes, `FieldExtractor` and `XMLDocTransformer`.
Python exceptions are modelled with an explicit error type and `Except`;
machine behaviour such as `str.split`, dict insertion order and `dict.update`
is modelled operation by operation from the source.
-/

namespace Datax

/-- Python exceptions that the program (or the library calls it makes) can
raise, named after the concrete Python exception classes. -/
inductive PyError where
  | valueError (msg : String)
  | indexError (msg : String)
  | keyError (key : String)
  | typeError (msg : String)
  | nameError (name : String)
  | attributeError (attr : String)
deriving DecidableEq, Repr

deriving instance DecidableEq for Except

/-- The spec's `FieldNotFoundError`: realized in the source as
`raise KeyError(self._name)` in `FieldExtractor.extract` (transform.py line 44),
carrying the field name. -/
def fieldNotFoundError (name : String) : PyError := .keyError name

/-- The spec's `RootNotFoundError`: realized in the source as the `TypeError`
Python raises when `transform` iterates `enumerate(root)` with `root = None`
(transform.py line 73). -/
def rootNotFoundError : PyError :=
  .typeError "argument of type NoneType is not iterable"

/-- The spec's `ConfigurationError` for a field spec with a missing name:
realized in the source as the `IndexError` raised by `field_spec_parts.pop(0)`
on an exhausted list (transform.py line 14). -/
def configurationErrorMissingName : PyError := .indexError "pop from empty list"

/-- The spec's `ConfigurationError` for an unrecognized value source:
realized in the source as `ValueError("Invalid value source: ...")`
(transform.py line 20). -/
def configurationErrorInvalidSource (src : String) : PyError :=
  .valueError ("Invalid value source: " ++ src)

/-- Python `str.split(sep)` for a single-character separator: same contract as
CPython (`"".split(sep) = [""]`, empty runs between separators give `""`). -/
def pySplit (s : String) (sep : Char) : List String :=
  (s.data.splitOn sep).map String.mk

/-- Python `str.startswith`. -/
def pyStartsWith (s pre : String) : Bool :=
  decide (s.data.take pre.data.length = pre.data)

/-- Python `str(x)` applied to an optional string (`str` or `None`):
`str(None)` is the literal string `"None"`. -/
def pyStr : Option String → String
  | none => "None"
  | some s => s

/-- An `xml.etree.ElementTree.Element`: tag, attribute dictionary, text
content (`None` or a string), direct children in document order. The tree is
the external collaborator's data model (spec section 3, "Tree node"). -/
inductive Element where
  | mk (tag : String) (attrib : List (String × String)) (text : Option String)
       (children : List Element)

def Element.tag : Element → String
  | .mk t _ _ _ => t

def Element.attrib : Element → List (String × String)
  | .mk _ a _ _ => a

def Element.text : Element → Option String
  | .mk _ _ tx _ => tx

def Element.children : Element → List Element
  | .mk _ _ _ cs => cs

/-- `element.get(key)`: attribute lookup, `None` when absent. -/
def Element.get (e : Element) (key : String) : Option String :=
  (e.attrib.find? (fun p => p.1 == key)).map (fun p => p.2)

mutual

/-- All proper descendants of an element in document (preorder) order, as
`ElementTree`'s `.//` axis enumerates them. -/
def Element.descendants : Element → List Element
  | .mk _ _ _ cs => descendantsList cs

def descendantsList : List Element → List Element
  | [] => []
  | c :: rest => c :: (Element.descendants c ++ descendantsList rest)

end

/-- `element.find(path)` for the `ElementPath` fragment the program uses:
a path starting with `.//` selects the first proper descendant (any depth,
document order) whose tag equals the remainder of the path; any other path
selects the first direct child whose tag equals the path. -/
def Element.find (e : Element) (path : String) : Option Element :=
  if pyStartsWith path ".//" then
    (Element.descendants e).find? (fun c => c.tag == String.mk (path.data.drop 3))
  else
    e.children.find? (fun c => c.tag == path)

/-- An `ElementTree` document handle; `getroot` returns the top-level
element. -/
structure Document where
  root : Element

def Document.getroot (d : Document) : Element := d.root

/-- The external string-formatting engine: given the format directive (the
part after the second `:` of a field spec) and the raw value (`None` or a
string), produce the formatted string or raise. The source builds
`"{:" + field_format + "}"` and calls its `.format`; its mini-language is an
external collaborator, so the development is parameterized over it. -/
def Formatter : Type := String → Option String → Except PyError String

/-- A formatter instance used to run the model on concrete inputs; it is only
ever applied where the program supplies a format directive. -/
def strFormatter : Formatter := fun _ v => .ok (pyStr v)

/-- `FieldExtractor`'s per-instance state: `_source` and `_name` as stored by
`__init__`; the constructor's `_formatter` closure is represented by the
optional format directive it closes over, applied at call time. -/
structure FieldExtractor where
  _source : String
  _name : String
  _field_format : Option String
deriving DecidableEq, Repr

/-- The `name` property. -/
def FieldExtractor.name (fe : FieldExtractor) : String := fe._name

/-- `FieldExtractor.from_spec`: split on `:`; the first two `pop(0)` calls
take source and name (the second raises `IndexError` when the split produced
fewer than two parts); a third part, when present, is the format directive;
then the source is validated against `['attrib', 'text']`. -/
def FieldExtractor.from_spec (field_spec : String) : Except PyError FieldExtractor :=
  match pySplit field_spec ':' with
  | [] => .error configurationErrorMissingName
  | [_] => .error configurationErrorMissingName
  | value_source :: field_name :: rest =>
    if value_source == "attrib" || value_source == "text" then
      .ok ⟨value_source, field_name, rest.head?⟩
    else
      .error (configurationErrorInvalidSource value_source)

/-- Apply the extractor's formatter: `str` when no format directive was given
(so `None` formats to `"None"`), otherwise the external format engine on the
stored directive. -/
def FieldExtractor.format (pyF : Formatter) (fe : FieldExtractor)
    (value : Option String) : Except PyError String :=
  match fe._field_format with
  | none => .ok (pyStr value)
  | some f => pyF f value

/-- `FieldExtractor.extract`: for source `attrib`, `element.get(name)` (missing
attribute yields `None`, passed straight to the formatter); for source `text`,
`element.find(name)` and the child's text when found, `KeyError(name)` when
not. Any other source leaves the local `value` unbound, so the final
`self._formatter(value)` raises Python's unbound-local `NameError`. -/
def FieldExtractor.extract (pyF : Formatter) (fe : FieldExtractor)
    (element : Element) : Except PyError String :=
  if fe._source == "attrib" then
    fe.format pyF (element.get fe._name)
  else if fe._source == "text" then
    match element.find fe._name with
    | some child => fe.format pyF child.text
    | none => .error (fieldNotFoundError fe._name)
  else
    .error (.nameError "value")

/-- A Python value stored in a produced record: the `int` index from
`enumerate` or an extracted string. -/
inductive PyVal where
  | intV (n : Nat)
  | strV (s : String)
deriving DecidableEq, Repr

/-- A Python `dict` with string keys, modelled as its insertion-ordered
entry list with unique keys maintained by `dictSet`. -/
abbrev PyDict : Type := List (String × PyVal)

/-- `d[k] = v`: overwrite in place when the key is present (Python keeps the
original insertion position), append otherwise. -/
def dictSet (d : PyDict) (k : String) (v : PyVal) : PyDict :=
  if d.any (fun p => p.1 == k) then
    d.map (fun p => if p.1 == k then (k, v) else p)
  else
    d ++ [(k, v)]

/-- `d.get(k)`: the value stored under `k`, `None` when absent. -/
def dictGet (d : PyDict) (k : String) : Option PyVal :=
  (d.find? (fun p => p.1 == k)).map (fun p => p.2)

/-- `d.update(other)`: set each of `other`'s entries in insertion order. -/
def dictUpdate (d other : PyDict) : PyDict :=
  other.foldl (fun acc kv => dictSet acc kv.1 kv.2) d

/-- The list comprehension `[FieldExtractor.from_spec(fs) for fs in
field_specs]` in `XMLDocTransformer.__init__`: specs are parsed left to
right and the first failure aborts construction. -/
def parseFields : List String → Except PyError (List FieldExtractor)
  | [] => .ok []
  | spec :: rest =>
    match FieldExtractor.from_spec spec with
    | .error e => .error e
    | .ok fe =>
      match parseFields rest with
      | .error e => .error e
      | .ok fes => .ok (fe :: fes)

/-- `XMLDocTransformer`'s per-instance state: exactly the three attributes
`__init__` assigns. -/
structure XMLDocTransformer where
  _index_field : String
  _fields : List FieldExtractor
  _root_path : Option String
deriving DecidableEq, Repr

/-- `XMLDocTransformer.__init__`: parse the field specs, then normalize the
root path — when it is truthy (present and non-empty) and does not start
with `.//`, prepend `.//`. -/
def XMLDocTransformer.init (index_field : String) (field_specs : List String)
    (root_path : Option String) : Except PyError XMLDocTransformer :=
  match parseFields field_specs with
  | .error e => .error e
  | .ok fields =>
    let rp : Option String :=
      match root_path with
      | none => none
      | some p =>
        if p ≠ "" && !(pyStartsWith p ".//") then some (".//" ++ p) else some p
    .ok ⟨index_field, fields, rp⟩

/-- A value read out of a transformer attribute (used to model Python's
dynamic attribute lookup on the instance). -/
inductive PyAttr where
  | strA (s : String)
  | fieldsA (fs : List FieldExtractor)
  | pathA (p : Option String)
deriving DecidableEq, Repr

/-- Python attribute lookup on an `XMLDocTransformer` instance: `__init__`
assigns exactly `_index_field`, `_fields` and `_root_path`, so any other
attribute read raises `AttributeError`. -/
def XMLDocTransformer.getattr (t : XMLDocTransformer) (attr : String) :
    Except PyError PyAttr :=
  if attr == "_index_field" then .ok (.strA t._index_field)
  else if attr == "_fields" then .ok (.fieldsA t._fields)
  else if attr == "_root_path" then .ok (.pathA t._root_path)
  else .error (.attributeError attr)

/-- The `index_field` property: its body is `return self._index_field_name`
(transform.py line 62), an attribute lookup on a name `__init__` never
assigns. -/
def XMLDocTransformer.index_field (t : XMLDocTransformer) :
    Except PyError PyAttr :=
  t.getattr "_index_field_name"

/-- `XMLDocTransformer.field_names`:
`[self._index_field] + [field.name for field in self._fields]`. -/
def XMLDocTransformer.field_names (t : XMLDocTransformer) : List String :=
  t._index_field :: t._fields.map FieldExtractor.name

/-- The dict comprehension `{field.name: field.extract(item) for field in
self._fields}` of `transform`, with `d` the dict built so far: extractors
run left to right and the first exception propagates. -/
def buildComp (pyF : Formatter) (fields : List FieldExtractor) (item : Element)
    (d : PyDict) : Except PyError PyDict :=
  match fields with
  | [] => .ok d
  | f :: rest =>
    match FieldExtractor.extract pyF f item with
    | .error e => .error e
    | .ok v => buildComp pyF rest item (dictSet d f.name (.strV v))

/-- One loop body of `transform`: `item_dict = {self._index_field: index}`
then `item_dict.update({field.name: field.extract(item) for field in
self._fields})`. -/
def buildRecord (pyF : Formatter) (fields : List FieldExtractor)
    (index_field : String) (index : Nat) (item : Element) :
    Except PyError PyDict :=
  match buildComp pyF fields item [] with
  | .error e => .error e
  | .ok comp => .ok (dictUpdate [(index_field, .intV index)] comp)

/-- The `for index, item in enumerate(root)` loop of `transform`: builds one
record per child; an exception anywhere discards the accumulated `items`
list and propagates (the Python function raises before returning). -/
def transformItems (pyF : Formatter) (fields : List FieldExtractor)
    (index_field : String) (index : Nat) :
    List Element → Except PyError (List PyDict)
  | [] => .ok []
  | item :: rest =>
    match buildRecord pyF fields index_field index item with
    | .error e => .error e
    | .ok d =>
      match transformItems pyF fields index_field (index + 1) rest with
      | .error e => .error e
      | .ok ds => .ok (d :: ds)

/-- The root-resolution step of `transform`: `root = xmldoc.getroot()`, then
`root = root.find(self._root_path)` when a root path is stored. The result is
`None` exactly when the stored path matches nothing. -/
def resolveRoot (t : XMLDocTransformer) (xmldoc : Document) : Option Element :=
  match t._root_path with
  | none => some xmldoc.getroot
  | some p => xmldoc.getroot.find p

/-- `XMLDocTransformer.transform`: resolve the root, then iterate its direct
children with `enumerate`; iterating `None` (root path matched nothing)
raises `TypeError`. -/
def XMLDocTransformer.transform (pyF : Formatter) (t : XMLDocTransformer)
    (xmldoc : Document) : Except PyError (List PyDict) :=
  match resolveRoot t xmldoc with
  | none => .error rootNotFoundError
  | some root => transformItems pyF t._fields t._index_field 0 root.children

/-! ### Concrete fixtures

The spec's section 8 scenario document
`<items><item a="1"><v>10</v></item><item a="2"><v>20</v></item></items>`
and a variant whose child carries an `ID` attribute. -/

def elemX : Element := .mk "item" [("a", "1")] none [.mk "v" [] (some "10") []]

def elemY : Element := .mk "item" [("a", "2")] none [.mk "v" [] (some "20") []]

def rootItems : Element := .mk "items" [] none [elemX, elemY]

def docItems : Document := ⟨rootItems⟩

def elemS : Element := .mk "item" [("ID", "x")] none []

def shadowRoot : Element := .mk "items" [] none [elemS]

def docShadow : Document := ⟨shadowRoot⟩

def feAttrA : FieldExtractor := ⟨"attrib", "a", none⟩

def feTextV : FieldExtractor := ⟨"text", "v", none⟩

def feTextMissing : FieldExtractor := ⟨"text", "missing", none⟩

def feAttrMissing : FieldExtractor := ⟨"attrib", "missing", none⟩

def feAttrID : FieldExtractor := ⟨"attrib", "ID", none⟩

def tPair : XMLDocTransformer := ⟨"ID", [feAttrA, feTextV], none⟩

def tShadow : XMLDocTransformer := ⟨"ID", [feAttrID], none⟩

def tMissingField : XMLDocTransformer := ⟨"ID", [feTextMissing], none⟩

def tMissingRoot : XMLDocTransformer := ⟨"ID", [], some ".//missing"⟩

def recsPair : List PyDict :=
  [[("ID", .intV 0), ("a", .strV "1"), ("v", .strV "10")],
   [("ID", .intV 1), ("a", .strV "2"), ("v", .strV "20")]]

def recShadow : PyDict := [("ID", .strV "x")]

/-! ### Dictionary lemmas -/

lemma dictGet_nil (k : String) : dictGet [] k = none := rfl

lemma dictGet_cons (k0 : String) (v0 : PyVal) (rest : PyDict) (k : String) :
    dictGet ((k0, v0) :: rest) k =
      if k0 == k then some v0 else dictGet rest k := by
  by_cases h : k0 == k <;> simp [dictGet, List.find?, h]

lemma dictGet_map_ne (d : PyDict) (k k' : String) (v : PyVal) (h : k' ≠ k) :
    dictGet (d.map fun p => if p.1 == k then (k, v) else p) k' =
      dictGet d k' := by
  induction d with
  | nil => rfl
  | cons a rest ih =>
    rcases a with ⟨ak, av⟩
    by_cases hak : ak == k
    · have hk : ak = k := by simpa using hak
      simp only [List.map_cons, if_pos hak]
      rw [dictGet_cons, dictGet_cons, if_neg (by simp [Ne.symm h]),
        if_neg (by simp [hk ▸ Ne.symm h]), ih]
    · simp only [List.map_cons, if_neg hak]
      rw [dictGet_cons, dictGet_cons, ih]

lemma dictGet_map_self (d : PyDict) (k : String) (v : PyVal)
    (hany : d.any (fun p => p.1 == k) = true) :
    dictGet (d.map fun p => if p.1 == k then (k, v) else p) k = some v := by
  induction d with
  | nil => simp at hany
  | cons a rest ih =>
    rcases a with ⟨ak, av⟩
    by_cases hak : ak == k
    · simp only [List.map_cons, if_pos hak]
      rw [dictGet_cons, if_pos (by simp)]
    · simp only [List.map_cons, if_neg hak]
      rw [dictGet_cons, if_neg hak]
      apply ih
      simpa [List.any_cons, hak] using hany

lemma dictGet_append (d1 d2 : PyDict) (k : String) :
    dictGet (d1 ++ d2) k =
      match dictGet d1 k with
      | some v => some v
      | none => dictGet d2 k := by
  unfold dictGet
  rw [List.find?_append]
  cases List.find? (fun p => p.1 == k) d1 <;> simp [Option.or]

lemma dictGet_eq_none_of_forall_ne (d : PyDict) (k : String)
    (h : ∀ p ∈ d, p.1 ≠ k) : dictGet d k = none := by
  unfold dictGet
  rw [List.find?_eq_none.mpr]
  · rfl
  · intro p hp
    simpa using h p hp

lemma dictGet_dictSet_self (d : PyDict) (k : String) (v : PyVal) :
    dictGet (dictSet d k v) k = some v := by
  by_cases hc : d.any (fun p => p.1 == k)
  · rw [dictSet, if_pos hc]
    exact dictGet_map_self d k v hc
  · rw [dictSet, if_neg hc, dictGet_append]
    have hnone : dictGet d k = none := by
      apply dictGet_eq_none_of_forall_ne
      intro p hp hpk
      exact hc (List.any_eq_true.mpr ⟨p, hp, by simp [hpk]⟩)
    rw [hnone]
    simp [dictGet_cons]

lemma dictGet_dictSet_ne (d : PyDict) (k k' : String) (v : PyVal)
    (h : k' ≠ k) : dictGet (dictSet d k v) k' = dictGet d k' := by
  by_cases hc : d.any (fun p => p.1 == k)
  · rw [dictSet, if_pos hc]
    exact dictGet_map_ne d k k' v h
  · rw [dictSet, if_neg hc, dictGet_append]
    have hlast : dictGet [(k, v)] k' = none := by
      rw [dictGet_cons, if_neg (by simp [Ne.symm h])]
      rfl
    rw [hlast]
    cases dictGet d k' <;> rfl

lemma mem_dictSet (d : PyDict) (k : String) (v : PyVal) (p : String × PyVal)
    (hp : p ∈ dictSet d k v) : p = (k, v) ∨ p ∈ d := by
  by_cases hc : d.any (fun q => q.1 == k)
  · rw [dictSet, if_pos hc] at hp
    rcases List.mem_map.mp hp with ⟨q, hq, hqe⟩
    by_cases hqk : q.1 == k
    · left; rw [← hqe, if_pos hqk]
    · right; rw [← hqe, if_neg hqk]; exact hq
  · rw [dictSet, if_neg hc] at hp
    rcases List.mem_append.mp hp with h | h
    · right; exact h
    · left; simpa using h

lemma dictKeys_dictSet_nodup (d : PyDict) (k : String) (v : PyVal)
    (h : (d.map Prod.fst).Nodup) : ((dictSet d k v).map Prod.fst).Nodup := by
  by_cases hc : d.any (fun q => q.1 == k)
  · have heq : (dictSet d k v).map Prod.fst = d.map Prod.fst := by
      rw [dictSet, if_pos hc, List.map_map]
      apply List.map_congr_left
      intro p _
      by_cases hp : p.1 = k
      · simp only [Function.comp_apply, if_pos (by simp [hp] : (p.1 == k) = true)]
        exact hp.symm
      · simp only [Function.comp_apply, if_neg (by simp [hp] : ¬(p.1 == k) = true)]
    rw [heq]; exact h
  · rw [dictSet, if_neg hc, List.map_append]
    simp only [List.map_cons, List.map_nil]
    rw [List.nodup_append]
    refine ⟨h, List.nodup_singleton k, ?_⟩
    intro a ha hb
    simp only [List.mem_singleton] at hb
    subst hb
    rcases List.mem_map.mp ha with ⟨q, hq, hqe⟩
    exact hc (List.any_eq_true.mpr ⟨q, hq, by simp [hqe]⟩)

lemma dictUpdate_cons (d : PyDict) (k0 : String) (v0 : PyVal) (rest : PyDict) :
    dictUpdate d ((k0, v0) :: rest) = dictUpdate (dictSet d k0 v0) rest := rfl

lemma dictGet_dictUpdate_of_forall_ne (other : PyDict) (k : String) :
    ∀ d : PyDict, (∀ p ∈ other, p.1 ≠ k) →
      dictGet (dictUpdate d other) k = dictGet d k := by
  induction other with
  | nil => intro d _; rfl
  | cons kv rest ih =>
    intro d hne
    rcases kv with ⟨k0, v0⟩
    have h1 : k0 ≠ k := hne (k0, v0) (List.mem_cons_self _ _)
    rw [dictUpdate_cons,
      ih (dictSet d k0 v0) (fun p hp => hne p (List.mem_cons_of_mem _ hp)),
      dictGet_dictSet_ne d k0 k v0 (Ne.symm h1)]

lemma dictGet_dictUpdate_of_get (other : PyDict) (k : String) (x : PyVal) :
    ∀ d : PyDict, (other.map Prod.fst).Nodup → dictGet other k = some x →
      dictGet (dictUpdate d other) k = some x := by
  induction other with
  | nil => intro d _ hget; simp [dictGet, List.find?] at hget
  | cons kv rest ih =>
    intro d hnd hget
    rcases kv with ⟨k0, v0⟩
    have step : dictUpdate d ((k0, v0) :: rest) =
        dictUpdate (dictSet d k0 v0) rest := rfl
    rw [dictGet_cons] at hget
    simp only [List.map_cons, List.nodup_cons] at hnd
    by_cases h0 : k0 == k
    · have hk : k0 = k := by simpa using h0
      rw [if_pos h0] at hget
      subst hk
      rw [step, dictGet_dictUpdate_of_forall_ne rest k0 _ ?hne,
        dictGet_dictSet_self]
      · exact hget
      case hne =>
        intro p hp hpk
        exact hnd.1 (hpk ▸ List.mem_map_of_mem Prod.fst hp)
    · rw [if_neg h0] at hget
      rw [step]
      exact ih (dictSet d k0 v0) hnd.2 hget

/-! ### Comprehension and loop lemmas -/

lemma buildComp_ok_extract (pyF : Formatter) (item : Element) :
    ∀ (fields : List FieldExtractor) (d d' : PyDict),
      buildComp pyF fields item d = .ok d' →
      ∀ f ∈ fields, ∃ v, FieldExtractor.extract pyF f item = .ok v := by
  intro fields
  induction fields with
  | nil => intro d d' _ f hf; exact absurd hf (List.not_mem_nil f)
  | cons g rest ih =>
    intro d d' h f hf
    rw [buildComp] at h
    cases hg : FieldExtractor.extract pyF g item with
    | error e => rw [hg] at h; exact absurd h (by simp)
    | ok w =>
      rw [hg] at h
      rcases List.mem_cons.mp hf with rfl | hfr
      · exact ⟨w, hg⟩
      · exact ih _ _ h f hfr

lemma buildComp_keys (pyF : Formatter) (item : Element) (k : String) :
    ∀ (fields : List FieldExtractor) (d d' : PyDict),
      buildComp pyF fields item d = .ok d' →
      (∀ f ∈ fields, f.name ≠ k) → (∀ p ∈ d, p.1 ≠ k) →
      ∀ p ∈ d', p.1 ≠ k := by
  intro fields
  induction fields with
  | nil =>
    intro d d' h _ hd
    cases h
    exact hd
  | cons g rest ih =>
    intro d d' h hf hd
    rw [buildComp] at h
    cases hg : FieldExtractor.extract pyF g item with
    | error e => rw [hg] at h; exact absurd h (by simp)
    | ok w =>
      rw [hg] at h
      refine ih _ _ h (fun f hfr => hf f (List.mem_cons_of_mem _ hfr)) ?_
      intro p hp
      rcases mem_dictSet _ _ _ _ hp with rfl | hpd
      · exact hf g (List.mem_cons_self _ _)
      · exact hd p hpd

lemma buildComp_nodup_keys (pyF : Formatter) (item : Element) :
    ∀ (fields : List FieldExtractor) (d d' : PyDict),
      buildComp pyF fields item d = .ok d' →
      (d.map Prod.fst).Nodup → (d'.map Prod.fst).Nodup := by
  intro fields
  induction fields with
  | nil =>
    intro d d' h hd
    cases h
    exact hd
  | cons g rest ih =>
    intro d d' h hd
    rw [buildComp] at h
    cases hg : FieldExtractor.extract pyF g item with
    | error e => rw [hg] at h; exact absurd h (by simp)
    | ok w =>
      rw [hg] at h
      exact ih _ _ h (dictKeys_dictSet_nodup _ _ _ hd)

lemma buildComp_get_preserve (pyF : Formatter) (item : Element) (k : String) :
    ∀ (fields : List FieldExtractor) (d d' : PyDict),
      buildComp pyF fields item d = .ok d' →
      (∀ f ∈ fields, f.name ≠ k) →
      dictGet d' k = dictGet d k := by
  intro fields
  induction fields with
  | nil =>
    intro d d' h _
    cases h
    rfl
  | cons g rest ih =>
    intro d d' h hf
    rw [buildComp] at h
    cases hg : FieldExtractor.extract pyF g item with
    | error e => rw [hg] at h; exact absurd h (by simp)
    | ok w =>
      rw [hg] at h
      rw [ih _ _ h (fun f hfr => hf f (List.mem_cons_of_mem _ hfr)),
        dictGet_dictSet_ne _ _ _ _ (Ne.symm (hf g (List.mem_cons_self _ _)))]

lemma buildComp_get_uniq (pyF : Formatter) (item : Element)
    (f : FieldExtractor) (v : String)
    (hv : FieldExtractor.extract pyF f item = .ok v) :
    ∀ (fields : List FieldExtractor) (d d' : PyDict),
      buildComp pyF fields item d = .ok d' →
      f ∈ fields → (∀ g ∈ fields, g.name = f.name → g = f) →
      dictGet d' f.name = some (.strV v) := by
  intro fields
  induction fields with
  | nil => intro d d' _ hmem _; exact absurd hmem (List.not_mem_nil f)
  | cons g rest ih =>
    intro d d' h hmem huniq
    rw [buildComp] at h
    cases hg : FieldExtractor.extract pyF g item with
    | error e => rw [hg] at h; exact absurd h (by simp)
    | ok w =>
      rw [hg] at h
      by_cases hfr : f ∈ rest
      · exact ih _ _ h hfr
          (fun g' hg' he => huniq g' (List.mem_cons_of_mem _ hg') he)
      · have hgf : g = f := by
          rcases List.mem_cons.mp hmem with rfl | hc
          · rfl
          · exact absurd hc hfr
        subst hgf
        have hwv : w = v := by
          rw [hv] at hg
          exact (Except.ok.injEq _ _ |>.mp hg.symm)
        subst hwv
        have hrest : ∀ g' ∈ rest, g'.name ≠ g.name := by
          intro g' hg' he
          exact hfr (huniq g' (List.mem_cons_of_mem _ hg') he ▸ hg')
        rw [buildComp_get_preserve pyF item g.name rest _ _ h hrest,
          dictGet_dictSet_self]

lemma buildRecord_ok_comp (pyF : Formatter) (fields : List FieldExtractor)
    (index_field : String) (index : Nat) (item : Element) (d : PyDict)
    (h : buildRecord pyF fields index_field index item = .ok d) :
    ∃ comp, buildComp pyF fields item [] = .ok comp ∧
      d = dictUpdate [(index_field, .intV index)] comp := by
  rw [buildRecord] at h
  cases hc : buildComp pyF fields item [] with
  | error e => rw [hc] at h; exact absurd h (by simp)
  | ok comp =>
    rw [hc] at h
    cases h
    exact ⟨comp, rfl, rfl⟩

lemma buildRecord_ok_index (pyF : Formatter) (fields : List FieldExtractor)
    (index_field : String) (index : Nat) (item : Element) (d : PyDict)
    (h : buildRecord pyF fields index_field index item = .ok d)
    (hname : ∀ f ∈ fields, f.name ≠ index_field) :
    dictGet d index_field = some (.intV index) := by
  rcases buildRecord_ok_comp pyF fields index_field index item d h with
    ⟨comp, hc, rfl⟩
  have hkeys : ∀ p ∈ comp, p.1 ≠ index_field :=
    buildComp_keys pyF item index_field fields [] comp hc hname
      (fun p hp => absurd hp (List.not_mem_nil p))
  rw [dictGet_dictUpdate_of_forall_ne comp index_field _ hkeys,
    dictGet_cons, if_pos (by simp)]

lemma buildRecord_ok_shadow (pyF : Formatter) (fields : List FieldExtractor)
    (index_field : String) (index : Nat) (item : Element) (d : PyDict)
    (f : FieldExtractor)
    (h : buildRecord pyF fields index_field index item = .ok d)
    (hmem : f ∈ fields) (hname : f.name = index_field)
    (huniq : ∀ g ∈ fields, g.name = index_field → g = f) :
    ∃ v, FieldExtractor.extract pyF f item = .ok v ∧
      dictGet d index_field = some (.strV v) := by
  rcases buildRecord_ok_comp pyF fields index_field index item d h with
    ⟨comp, hc, rfl⟩
  rcases buildComp_ok_extract pyF item fields [] comp hc f hmem with ⟨v, hv⟩
  refine ⟨v, hv, ?_⟩
  have hcomp : dictGet comp f.name = some (.strV v) :=
    buildComp_get_uniq pyF item f v hv fields [] comp hc hmem
      (fun g hg he => huniq g hg (hname ▸ he))
  have hnd : (comp.map Prod.fst).Nodup :=
    buildComp_nodup_keys pyF item fields [] comp hc (by simp)
  rw [← hname]
  exact dictGet_dictUpdate_of_get comp f.name (.strV v) _ hnd hcomp

lemma transformItems_ok_length (pyF : Formatter)
    (fields : List FieldExtractor) (index_field : String) :
    ∀ (cs : List Element) (n : Nat) (items : List PyDict),
      transformItems pyF fields index_field n cs = .ok items →
      items.length = cs.length := by
  intro cs
  induction cs with
  | nil =>
    intro n items h
    cases h
    rfl
  | cons c rest ih =>
    intro n items h
    rw [transformItems] at h
    cases hb : buildRecord pyF fields index_field n c with
    | error e => rw [hb] at h; exact absurd h (by simp)
    | ok d =>
      rw [hb] at h
      cases hr : transformItems pyF fields index_field (n + 1) rest with
      | error e => rw [hr] at h; exact absurd h (by simp)
      | ok ds =>
        rw [hr] at h
        cases h
        simp [ih (n + 1) ds hr]

lemma transformItems_ok_get (pyF : Formatter)
    (fields : List FieldExtractor) (index_field : String) :
    ∀ (cs : List Element) (n : Nat) (items : List PyDict),
      transformItems pyF fields index_field n cs = .ok items →
      ∀ i item d, cs[i]? = some item → items[i]? = some d →
        buildRecord pyF fields index_field (n + i) item = .ok d := by
  intro cs
  induction cs with
  | nil => intro n items _ i item d hc; simp at hc
  | cons c rest ih =>
    intro n items h i item d hc hd
    rw [transformItems] at h
    cases hb : buildRecord pyF fields index_field n c with
    | error e => rw [hb] at h; exact absurd h (by simp)
    | ok d0 =>
      rw [hb] at h
      cases hr : transformItems pyF fields index_field (n + 1) rest with
      | error e => rw [hr] at h; exact absurd h (by simp)
      | ok ds =>
        rw [hr] at h
        cases h
        cases i with
        | zero =>
          simp only [List.getElem?_cons_zero, Option.some.injEq] at hc hd
          subst hc; subst hd
          simpa using hb
        | succ j =>
          simp only [List.getElem?_cons_succ] at hc hd
          have := ih (n + 1) ds hr j item d hc hd
          have harith : n + 1 + j = n + (j + 1) := by omega
          rw [harith] at this
          exact this

lemma transformItems_ok_forall (pyF : Formatter)
    (fields : List FieldExtractor) (index_field : String) :
    ∀ (cs : List Element) (n : Nat) (items : List PyDict),
      transformItems pyF fields index_field n cs = .ok items →
      ∀ c ∈ cs, ∃ k d, buildRecord pyF fields index_field k c = .ok d := by
  intro cs
  induction cs with
  | nil => intro n items _ c hc; exact absurd hc (List.not_mem_nil c)
  | cons c0 rest ih =>
    intro n items h c hc
    rw [transformItems] at h
    cases hb : buildRecord pyF fields index_field n c0 with
    | error e => rw [hb] at h; exact absurd h (by simp)
    | ok d0 =>
      rw [hb] at h
      cases hr : transformItems pyF fields index_field (n + 1) rest with
      | error e => rw [hr] at h; exact absurd h (by simp)
      | ok ds =>
        rcases List.mem_cons.mp hc with rfl | hcr
        · exact ⟨n, d0, hb⟩
        · exact ih (n + 1) ds hr c hcr

lemma parseFields_ok :
    ∀ (specs : List String) (fes : List FieldExtractor),
      parseFields specs = .ok fes →
      fes.length = specs.length ∧
      ∀ (i : Nat) (s : String), specs[i]? = some s → ∃ fe,
        FieldExtractor.from_spec s = .ok fe ∧ fes[i]? = some fe := by
  intro specs
  induction specs with
  | nil =>
    intro fes h
    cases h
    exact ⟨rfl, by intro i s hs; simp at hs⟩
  | cons s0 rest ih =>
    intro fes h
    rw [parseFields] at h
    cases hf : FieldExtractor.from_spec s0 with
    | error e => rw [hf] at h; exact absurd h (by simp)
    | ok fe =>
      rw [hf] at h
      cases hr : parseFields rest with
      | error e => rw [hr] at h; exact absurd h (by simp)
      | ok fes' =>
        rw [hr] at h
        cases h
        rcases ih fes' hr with ⟨hlen, hget⟩
        refine ⟨by simp [hlen], ?_⟩
        intro i s hs
        cases i with
        | zero =>
          simp only [List.getElem?_cons_zero, Option.some.injEq] at hs
          subst hs
          exact ⟨fe, hf, by simp⟩
        | succ j =>
          simp only [List.getElem?_cons_succ] at hs ⊢
          exact hget j s hs

/-! ### Claim theorems -/

/-- C2: for every extractor with source `text` and every node on which the
extractor's name path matches no descendant, `extract` fails with
`FieldNotFoundError` (a `KeyError`) carrying the field name. -/
theorem extract_text_missing_errors (pyF : Formatter) (fe : FieldExtractor)
    (el : Element) (hsrc : fe._source = "text")
    (hmiss : el.find fe._name = none) :
    FieldExtractor.extract pyF fe el = .error (fieldNotFoundError fe.name) := by
  unfold FieldExtractor.extract
  rw [hsrc, if_neg (by decide), if_pos (by decide), hmiss]
  rfl

theorem extract_text_missing_errors_wit :
    feTextMissing._source = "text" ∧
    elemX.find feTextMissing._name = none ∧
    FieldExtractor.extract strFormatter feTextMissing elemX =
      .error (fieldNotFoundError feTextMissing.name) :=
  ⟨rfl, rfl, extract_text_missing_errors strFormatter feTextMissing elemX rfl rfl⟩

/-- C3: for every extractor with source `attrib` and no format directive, a
node lacking the attribute makes `extract` return the string `"None"`
(Python's `str(None)`), raising no error. -/
theorem extract_attrib_missing_none (pyF : Formatter) (fe : FieldExtractor)
    (el : Element) (hsrc : fe._source = "attrib")
    (hfmt : fe._field_format = none)
    (hmiss : ∀ p ∈ el.attrib, p.1 ≠ fe._name) :
    FieldExtractor.extract pyF fe el = .ok "None" := by
  have hget : el.get fe._name = none := by
    unfold Element.get
    rw [List.find?_eq_none.mpr]
    · rfl
    · intro p hp
      simpa using hmiss p hp
  unfold FieldExtractor.extract
  rw [hsrc, if_pos (by decide), FieldExtractor.format, hfmt, hget]
  rfl

theorem extract_attrib_missing_none_wit :
    feAttrMissing._source = "attrib" ∧
    feAttrMissing._field_format = none ∧
    (∀ p ∈ elemX.attrib, p.1 ≠ feAttrMissing._name) ∧
    FieldExtractor.extract strFormatter feAttrMissing elemX = .ok "None" :=
  ⟨rfl, rfl, by decide,
    extract_attrib_missing_none strFormatter feAttrMissing elemX rfl rfl
      (by decide)⟩

/-- C4: every field spec that splits on `:` into fewer than two parts makes
`from_spec` fail with the spec's `ConfigurationError` for a missing name
(the `IndexError` from `pop(0)` on an exhausted list). -/
theorem from_spec_missing_name_errors (s : String)
    (h : (pySplit s ':').length < 2) :
    FieldExtractor.from_spec s = .error configurationErrorMissingName := by
  unfold FieldExtractor.from_spec
  rcases hps : pySplit s ':' with _ | ⟨a, _ | ⟨b, rest⟩⟩
  · rfl
  · rfl
  · rw [hps] at h
    simp at h
    omega

theorem from_spec_missing_name_errors_wit :
    (pySplit "attrib" ':').length < 2 ∧
    FieldExtractor.from_spec "attrib" = .error configurationErrorMissingName :=
  ⟨by decide, from_spec_missing_name_errors "attrib" (by decide)⟩

/-- C5: whenever a root path is stored and it matches no node of the
document, `transform` fails with the spec's `RootNotFoundError` (the
`TypeError` from iterating `None`), before any per-row work, so no records
are produced. -/
theorem transform_root_missing_errors (pyF : Formatter)
    (t : XMLDocTransformer) (doc : Document) (p : String)
    (hrp : t._root_path = some p)
    (hmiss : doc.getroot.find p = none) :
    XMLDocTransformer.transform pyF t doc = .error rootNotFoundError := by
  have hres : resolveRoot t doc = none := by
    unfold resolveRoot
    rw [hrp]
    exact hmiss
  unfold XMLDocTransformer.transform
  rw [hres]

theorem transform_root_missing_errors_wit :
    tMissingRoot._root_path = some ".//missing" ∧
    docItems.getroot.find ".//missing" = none ∧
    XMLDocTransformer.transform strFormatter tMissingRoot docItems =
      .error rootNotFoundError :=
  ⟨rfl, rfl,
    transform_root_missing_errors strFormatter tMissingRoot docItems
      ".//missing" rfl rfl⟩

/-- C9: reading the `index_field` property always fails with
`AttributeError`: its body returns `self._index_field_name`, an attribute no
constructor assigns. -/
theorem index_field_property_raises (t : XMLDocTransformer) :
    t.index_field = .error (.attributeError "_index_field_name") := rfl

/-- C1 (counterexample to the unqualified claim): with the index field named
`ID` and a field spec `attrib:ID`, the single record maps `ID` to the
extracted attribute value `"x"`, not to the child's index `0`. -/
theorem transform_index_assignment_cex :
    XMLDocTransformer.transform strFormatter tShadow docShadow =
      .ok [recShadow] ∧
    dictGet recShadow "ID" ≠ some (.intV 0) :=
  ⟨by decide, by decide⟩

/-- C1 (amended): for every transformer none of whose fields is named like
the index field, a successful transform of a document whose resolved root
has N direct children returns exactly N records in document order, the i-th
mapping the index field name to the integer i. -/
theorem transform_index_assignment (pyF : Formatter) (t : XMLDocTransformer)
    (doc : Document) (root : Element) (items : List PyDict)
    (hroot : resolveRoot t doc = some root)
    (hok : XMLDocTransformer.transform pyF t doc = .ok items)
    (hname : ∀ f ∈ t._fields, f.name ≠ t._index_field) :
    items.length = root.children.length ∧
    ∀ (i : Nat) (d : PyDict), items[i]? = some d →
      dictGet d t._index_field = some (.intV i) := by
  have htr : transformItems pyF t._fields t._index_field 0 root.children =
      .ok items := by
    unfold XMLDocTransformer.transform at hok
    rw [hroot] at hok
    exact hok
  have hlen := transformItems_ok_length pyF t._fields t._index_field
    root.children 0 items htr
  refine ⟨hlen, ?_⟩
  intro i d hd
  obtain ⟨hi, _⟩ := List.getElem?_eq_some.mp hd
  have hic : i < root.children.length := hlen ▸ hi
  have hc : root.children[i]? = some root.children[i] :=
    List.getElem?_eq_getElem hic
  have hb := transformItems_ok_get pyF t._fields t._index_field
    root.children 0 items htr i _ d hc hd
  rw [Nat.zero_add] at hb
  exact buildRecord_ok_index pyF t._fields t._index_field i _ d hb hname

theorem transform_index_assignment_wit :
    resolveRoot tPair docItems = some rootItems ∧
    XMLDocTransformer.transform strFormatter tPair docItems = .ok recsPair ∧
    (∀ f ∈ tPair._fields, f.name ≠ tPair._index_field) ∧
    (recsPair.length = rootItems.children.length ∧
      ∀ (i : Nat) (d : PyDict), recsPair[i]? = some d →
        dictGet d tPair._index_field = some (.intV i)) :=
  ⟨rfl, by decide, by decide,
    transform_index_assignment strFormatter tPair docItems rootItems recsPair
      rfl (by decide) (by decide)⟩

/-- C6: if any field extraction fails on any direct child of the resolved
root, the whole transform fails with an error — the `Except.error` result
carries no record list, so no partial output exists and no child is
skipped. -/
theorem transform_extract_failure_aborts (pyF : Formatter)
    (t : XMLDocTransformer) (doc : Document) (root : Element)
    (hroot : resolveRoot t doc = some root)
    (hfail : ∃ item ∈ root.children, ∃ f ∈ t._fields, ∃ e,
      FieldExtractor.extract pyF f item = .error e) :
    ∃ e', XMLDocTransformer.transform pyF t doc = .error e' := by
  cases htr : XMLDocTransformer.transform pyF t doc with
  | error e => exact ⟨e, rfl⟩
  | ok items =>
    exfalso
    unfold XMLDocTransformer.transform at htr
    rw [hroot] at htr
    obtain ⟨item, hitem, f, hf, e, he⟩ := hfail
    obtain ⟨k, d, hb⟩ := transformItems_ok_forall pyF t._fields t._index_field
      root.children 0 items htr item hitem
    obtain ⟨comp, hc, _⟩ := buildRecord_ok_comp pyF t._fields t._index_field
      k item d hb
    obtain ⟨v, hv⟩ := buildComp_ok_extract pyF item t._fields [] comp hc f hf
    rw [he] at hv
    exact absurd hv (by simp)

theorem transform_extract_failure_aborts_wit :
    resolveRoot tMissingField docItems = some rootItems ∧
    (∃ item ∈ rootItems.children, ∃ f ∈ tMissingField._fields, ∃ e,
      FieldExtractor.extract strFormatter f item = .error e) ∧
    ∃ e', XMLDocTransformer.transform strFormatter tMissingField docItems =
      .error e' :=
  ⟨rfl,
    ⟨elemX, List.mem_cons_self _ _, feTextMissing, List.mem_cons_self _ _,
      fieldNotFoundError "missing", by decide⟩,
    transform_extract_failure_aborts strFormatter tMissingField docItems
      rootItems rfl
      ⟨elemX, List.mem_cons_self _ _, feTextMissing, List.mem_cons_self _ _,
        fieldNotFoundError "missing", by decide⟩⟩

/-- C7: a successfully constructed transformer's `field_names` lists the
index field first, then each field's name exactly once, in the order the
field specifications were given. -/
theorem field_names_order (idx : String) (specs : List String)
    (rp : Option String) (t : XMLDocTransformer)
    (h : XMLDocTransformer.init idx specs rp = .ok t) :
    t.field_names.length = specs.length + 1 ∧
    t.field_names.head? = some idx ∧
    ∀ (i : Nat) (s : String), specs[i]? = some s → ∃ fe,
      FieldExtractor.from_spec s = .ok fe ∧
      t.field_names[i + 1]? = some fe.name := by
  unfold XMLDocTransformer.init at h
  cases hp : parseFields specs with
  | error e => rw [hp] at h; exact absurd h (by simp)
  | ok fields =>
    rw [hp] at h
    cases h
    rcases parseFields_ok specs fields hp with ⟨hlen, hget⟩
    refine ⟨by simp [XMLDocTransformer.field_names, hlen], rfl, ?_⟩
    intro i s hs
    rcases hget i s hs with ⟨fe, hfe, hi⟩
    refine ⟨fe, hfe, ?_⟩
    simp only [XMLDocTransformer.field_names, List.getElem?_cons_succ,
      List.getElem?_map, hi, Option.map_some]
    rfl

theorem field_names_order_wit :
    XMLDocTransformer.init "ID" ["attrib:a", "text:v"] none = .ok tPair ∧
    (tPair.field_names.length = (["attrib:a", "text:v"] : List String).length + 1 ∧
      tPair.field_names.head? = some "ID" ∧
      ∀ (i : Nat) (s : String), (["attrib:a", "text:v"] : List String)[i]? = some s → ∃ fe,
        FieldExtractor.from_spec s = .ok fe ∧
        tPair.field_names[i + 1]? = some fe.name) :=
  ⟨by decide,
    field_names_order "ID" ["attrib:a", "text:v"] none tPair (by decide)⟩

/-- C8: construction stores a non-empty root path lacking the `.//` any-depth
marker with `.//` prepended, and stores a path already starting `.//`, an
empty path, or an absent path unchanged. -/
theorem root_path_normalization (idx : String) (specs : List String)
    (rp : Option String) (t : XMLDocTransformer)
    (h : XMLDocTransformer.init idx specs rp = .ok t) :
    (∀ p, rp = some p → p ≠ "" → pyStartsWith p ".//" = false →
      t._root_path = some (".//" ++ p)) ∧
    (∀ p, rp = some p → pyStartsWith p ".//" = true →
      t._root_path = some p) ∧
    (rp = some "" → t._root_path = some "") ∧
    (rp = none → t._root_path = none) := by
  unfold XMLDocTransformer.init at h
  cases hp : parseFields specs with
  | error e => rw [hp] at h; exact absurd h (by simp)
  | ok fields =>
    rw [hp] at h
    cases h
    refine ⟨?_, ?_, ?_, ?_⟩
    · intro p hrp hne hpre
      subst hrp
      simp [hne, hpre]
    · intro p hrp hpre
      subst hrp
      simp [hpre]
    · intro hrp
      subst hrp
      simp
    · intro hrp
      subst hrp
      rfl

theorem root_path_normalization_wit :
    XMLDocTransformer.init "ID" [] (some "reg_areas") =
      .ok ⟨"ID", [], some ".//reg_areas"⟩ ∧
    ((∀ p, (some "reg_areas" : Option String) = some p → p ≠ "" →
        pyStartsWith p ".//" = false →
        (⟨"ID", [], some ".//reg_areas"⟩ : XMLDocTransformer)._root_path =
          some (".//" ++ p)) ∧
      (∀ p, (some "reg_areas" : Option String) = some p →
        pyStartsWith p ".//" = true →
        (⟨"ID", [], some ".//reg_areas"⟩ : XMLDocTransformer)._root_path =
          some p) ∧
      ((some "reg_areas" : Option String) = some "" →
        (⟨"ID", [], some ".//reg_areas"⟩ : XMLDocTransformer)._root_path =
          some "") ∧
      ((some "reg_areas" : Option String) = none →
        (⟨"ID", [], some ".//reg_areas"⟩ : XMLDocTransformer)._root_path =
          none)) :=
  ⟨by decide,
    root_path_normalization "ID" [] (some "reg_areas")
      ⟨"ID", [], some ".//reg_areas"⟩ (by decide)⟩

/-- C10: when exactly one field is named like the index field, each produced
record maps that name to the field's extracted value (a string), which
silently replaces the synthetic integer index. -/
theorem index_field_shadowing (pyF : Formatter) (t : XMLDocTransformer)
    (doc : Document) (root : Element) (f : FieldExtractor)
    (items : List PyDict)
    (hroot : resolveRoot t doc = some root)
    (hok : XMLDocTransformer.transform pyF t doc = .ok items)
    (hmem : f ∈ t._fields) (hname : f.name = t._index_field)
    (huniq : ∀ g ∈ t._fields, g.name = t._index_field → g = f) :
    ∀ (i : Nat) (item : Element) (d : PyDict),
      root.children[i]? = some item → items[i]? = some d →
      ∃ v, FieldExtractor.extract pyF f item = .ok v ∧
        dictGet d t._index_field = some (.strV v) := by
  have htr : transformItems pyF t._fields t._index_field 0 root.children =
      .ok items := by
    unfold XMLDocTransformer.transform at hok
    rw [hroot] at hok
    exact hok
  intro i item d hc hd
  have hb := transformItems_ok_get pyF t._fields t._index_field
    root.children 0 items htr i item d hc hd
  rw [Nat.zero_add] at hb
  exact buildRecord_ok_shadow pyF t._fields t._index_field i item d f hb
    hmem hname huniq

theorem index_field_shadowing_wit :
    resolveRoot tShadow docShadow = some shadowRoot ∧
    XMLDocTransformer.transform strFormatter tShadow docShadow =
      .ok [recShadow] ∧
    feAttrID ∈ tShadow._fields ∧
    feAttrID.name = tShadow._index_field ∧
    (∀ g ∈ tShadow._fields, g.name = tShadow._index_field → g = feAttrID) ∧
    ∀ (i : Nat) (item : Element) (d : PyDict),
      shadowRoot.children[i]? = some item → [recShadow][i]? = some d →
      ∃ v, FieldExtractor.extract strFormatter feAttrID item = .ok v ∧
        dictGet d tShadow._index_field = some (.strV v) :=
  ⟨rfl, by decide, by decide, rfl, by decide,
    index_field_shadowing strFormatter tShadow docShadow shadowRoot feAttrID
      [recShadow] rfl (by decide) (by decide) rfl (by decide)⟩

end Datax
